import Mathlib

/-!
Verification of the bzz/sdk repository core: the source-AST to node converter
(`src/uast/original.go`) and the native driver / encoding / protocol layer
(specified in the design document; only its tests are among the given sources,
so those parts are modelled from the spec).

Machine integers are modelled as `Nat`/`Int` with explicit `% 2^32` where Go
performs a `uint32` conversion.  Go maps iterated with `range` are modelled as
association lists in a fixed order; the properties proved below do not depend
on that order.  Fallible Go functions returning `(T, error)` are modelled as
`Except`-valued functions.
-/

namespace UAST

/-- Errors produced by the converter, mirroring the error kinds declared at
the top of `original.go` (`ErrEmptyAST`, `ErrUnexpectedObject`,
`ErrUnexpectedObjectSize`, `ErrUnsupported`) together with the ad hoc
`fmt.Errorf` failures of `addProperty`/`setInternalKey` and the numeric
conversion failures of `toUint32`. -/
inductive ConvErr where
  | emptyAST : ConvErr
  | unexpectedObject : ConvErr
  | unexpectedObjectSize (expected got : Nat) : ConvErr
  | unsupported (what : String) : ConvErr
  | twoTokenKeys (k : String) : ConvErr
  | twoInternalKeys (prev next : String) : ConvErr
  | parseUintError (s : String) : ConvErr
  | toUint32Error : ConvErr
deriving DecidableEq, Repr

/-- A scalar Go `interface{}` value: the non-map, non-slice cases that reach
`addProperty` in `toNode`. -/
inductive Scalar where
  | sstr (s : String) : Scalar
  | sint (i : Int) : Scalar
  | sbool (b : Bool) : Scalar
deriving DecidableEq, Repr

/-- A Go `interface{}` value as it appears in a decoded source AST: a nested
map (`map[string]interface{}`, modelled as an association list in iteration
order), a slice (`[]interface{}`), or a scalar. -/
inductive Value where
  | vmap (entries : List (String × Value)) : Value
  | varr (elems : List Value) : Value
  | vscalar (s : Scalar) : Value
deriving Repr

/-- `Position` as used by `original.go`: `Offset` and `Line` are `*uint32`
fields, modelled as `Option Nat` with values below `2^32`. -/
structure Position where
  Offset : Option Nat
  Line : Option Nat
deriving DecidableEq, Repr

/-- Modelled from the spec: the `Node` type itself is defined outside the
given sources ("the opaque tree payload ... its construction from nested
maps/arrays into a typed, position-sorted tree"); its fields are exactly the
ones `original.go` reads and writes: `InternalType`, `Properties`
(`map[string]string`, modelled as an association list), `Token` (`*string`),
`StartPosition` (`*Position`) and `Children` (`[]*Node`). -/
inductive Node where
  | mk (InternalType : String) (Properties : List (String × String))
      (Token : Option String) (StartPosition : Option Position)
      (Children : List Node) : Node
deriving Repr

def Node.InternalType : Node → String
  | .mk t _ _ _ _ => t

def Node.Properties : Node → List (String × String)
  | .mk _ p _ _ _ => p

def Node.Token : Node → Option String
  | .mk _ _ tk _ _ => tk

def Node.StartPosition : Node → Option Position
  | .mk _ _ _ sp _ => sp

def Node.Children : Node → List Node
  | .mk _ _ _ _ cs => cs

/-- Modelled from the spec: `NewNode` is defined outside the given sources; a
fresh node has zero values in every field (empty `Properties` map, nil
pointers, empty `Children` slice). -/
def NewNode : Node := .mk "" [] none none []

def Node.withInternalType (n : Node) (t : String) : Node :=
  .mk t n.Properties n.Token n.StartPosition n.Children

def Node.withProperties (n : Node) (p : List (String × String)) : Node :=
  .mk n.InternalType p n.Token n.StartPosition n.Children

def Node.withToken (n : Node) (tk : Option String) : Node :=
  .mk n.InternalType n.Properties tk n.StartPosition n.Children

def Node.withStartPosition (n : Node) (sp : Option Position) : Node :=
  .mk n.InternalType n.Properties n.Token sp n.Children

def Node.withChildren (n : Node) (cs : List Node) : Node :=
  .mk n.InternalType n.Properties n.Token n.StartPosition cs

/-- `n.offset()`: the start offset of a node, `nil` when the node has no
start position.  Modelled from its use in `byOffset.Less`. -/
def Node.offset (n : Node) : Option Nat :=
  match n.StartPosition with
  | none => none
  | some p => p.Offset

/-- Go map assignment `m[k] = v` on an association list: replace the binding
if the key is present, append it otherwise. -/
def setProp : List (String × String) → String → String → List (String × String)
  | [], k, v => [(k, v)]
  | (k0, v0) :: rest, k, v =>
    if k0 = k then (k, v) :: rest else (k0, v0) :: setProp rest k v

/-- Go map lookup `m[k]` returning the zero value on a miss, for
`map[string]bool` (`TokenKeys`). -/
def lookupBool : List (String × Bool) → String → Bool
  | [], _ => false
  | (k0, b) :: rest, k => if k0 = k then b else lookupBool rest k

/-- Go map lookup with the `ok` flag, for `map[string]string`
(`SyntheticTokens`). -/
def lookupStr : List (String × String) → String → Option String
  | [], _ => none
  | (k0, v) :: rest, k => if k0 = k then some v else lookupStr rest k

/-- `topLevelIsRootNode` constant of `original.go`. -/
def topLevelIsRootNode : Bool := false

/-- `InternalRoleKey` constant of `original.go`. -/
def InternalRoleKey : String := "internalRole"

/-- `BaseOriginalToNoder` configuration: `InternalTypeKey`, `OffsetKey`,
`LineKey`, `TokenKeys` (`map[string]bool`) and `SyntheticTokens`
(`map[string]string`), both maps modelled as association lists. -/
structure BaseOriginalToNoder where
  InternalTypeKey : String
  OffsetKey : String
  LineKey : String
  TokenKeys : List (String × Bool)
  SyntheticTokens : List (String × String)

/-- `c.isTokenKey(key)`: `c.TokenKeys != nil && c.TokenKeys[key]`; a nil map
yields `false` on lookup either way, so nil is modelled as the empty list. -/
def BaseOriginalToNoder.isTokenKey (c : BaseOriginalToNoder) (key : String) : Bool :=
  lookupBool c.TokenKeys key

/-- `c.syntheticToken(key)`: lookup in `SyntheticTokens` returning nil on a
miss or a nil map. -/
def BaseOriginalToNoder.syntheticToken (c : BaseOriginalToNoder) (key : String) :
    Option String :=
  lookupStr c.SyntheticTokens key

/-- `fmt.Sprint` on the scalar values that reach it: a string prints as
itself, an int in decimal (with a leading minus sign when negative), a bool
as `true`/`false`. -/
def sprint : Scalar → String
  | .sstr s => s
  | .sint i => toString i
  | .sbool b => cond b "true" "false"

/-- Whether a string is a nonempty run of ASCII decimal digits. -/
def allDigits (s : String) : Bool :=
  !s.isEmpty && s.toList.all fun ch => ch.isDigit

/-- The numeric value of a digit string, most significant digit first. -/
def digitsVal (s : String) : Nat :=
  s.toList.foldl (fun acc ch => acc * 10 + (ch.toNat - 48)) 0

/-- `toUint32` of `original.go`: a string goes through
`strconv.ParseUint(o, 10, 32)` (digits only, no sign, value below `2^32`);
an integer is converted with Go's `uint32(o)` conversion, which truncates to
the low 32 bits (two's complement wraparound for negatives); anything else is
a `toUint32 error`. -/
def toUint32 : Scalar → Except ConvErr Nat
  | .sstr s =>
    if allDigits s && digitsVal s < 2 ^ 32 then .ok (digitsVal s)
    else .error (.parseUintError s)
  | .sint i => .ok ((i % (2 ^ 32 : Int)).toNat)
  | .sbool _ => .error .toUint32Error

/-- `c.setInternalKey(n, k)`: fails when the node already has a non-empty
`InternalType`, otherwise records `k` as the `InternalType`. -/
def BaseOriginalToNoder.setInternalKey (c : BaseOriginalToNoder) (n : Node) (k : String) :
    Except ConvErr Node :=
  if n.InternalType ≠ "" then .error (.twoInternalKeys n.InternalType k)
  else .ok (n.withInternalType k)

/-- `c.addProperty(n, k, o)` of `original.go`: the four-way switch on the
key.  A token key sets `Token` (failing if already set); the
`InternalTypeKey` sets the internal type and possibly a synthetic token; the
`OffsetKey`/`LineKey` fill the start position through `toUint32`; any other
key stores `fmt.Sprint(0)` — the constant string `"0"` — as the property
value. -/
def BaseOriginalToNoder.addProperty (c : BaseOriginalToNoder) (n : Node) (k : String)
    (o : Scalar) : Except ConvErr Node :=
  if c.isTokenKey k then
    if n.Token ≠ none then .error (.twoTokenKeys k)
    else .ok (n.withToken (some (sprint o)))
  else if c.InternalTypeKey = k then do
    let s := sprint o
    let n ← c.setInternalKey n s
    match c.syntheticToken s with
    | none => .ok n
    | some tk =>
      if n.Token ≠ none then .error (.twoTokenKeys k)
      else .ok (n.withToken (some tk))
  else if c.OffsetKey = k then do
    let i ← toUint32 o
    let sp := (n.StartPosition.getD { Offset := none, Line := none })
    .ok (n.withStartPosition (some { sp with Offset := some i }))
  else if c.LineKey = k then do
    let i ← toUint32 o
    let sp := (n.StartPosition.getD { Offset := none, Line := none })
    .ok (n.withStartPosition (some { sp with Line := some i }))
  else
    .ok (n.withProperties (setProp n.Properties k (toString 0)))

/-- `byOffset.Less(i, j)` of `original.go`: a node with no offset is never
less than anything; a node with an offset is less than any node without one;
two nodes with offsets compare by offset. -/
def byOffsetLess (a b : Node) : Bool :=
  match a.offset with
  | none => false
  | some ao =>
    match b.offset with
    | none => true
    | some bo => ao < bo

/-- The non-strict order induced by `byOffset.Less`: `a` may precede `b` in a
slice sorted by `sort.Sort(byOffset(...))` exactly when `¬ Less(b, a)`. -/
def byOffsetLe (a b : Node) : Prop := byOffsetLess b a = false

instance : DecidableRel byOffsetLe := fun a b =>
  inferInstanceAs (Decidable (byOffsetLess b a = false))

instance : IsTotal Node byOffsetLe where
  total a b := by
    unfold byOffsetLe byOffsetLess
    rcases ha : a.offset with _ | ao <;> rcases hb : b.offset with _ | bo <;> simp
    omega

instance : IsTrans Node byOffsetLe where
  trans a b c hab hbc := by
    unfold byOffsetLe byOffsetLess at *
    rcases ha : a.offset with _ | ao <;> rcases hb : b.offset with _ | bo <;>
      rcases hc : c.offset with _ | co <;> simp_all
    omega

/-- `sort.Sort(byOffset(children))`: Go's `sort.Sort` reorders the slice into
some permutation sorted with respect to `Less`; it is embedded as insertion
sort over the non-strict relation `¬ Less(b, a)`, which yields a permutation
sorted with respect to the same `Less`. -/
def sortChildren (cs : List Node) : List Node :=
  List.insertionSort byOffsetLe cs

mutual

/-- `c.toNode(obj)` of `original.go`: an object that is not a map fails; a
map is folded entry by entry — nested maps and slices become children,
scalars become properties — and the collected children are sorted by offset
at the end. -/
def toNode (c : BaseOriginalToNoder) : Value → Except ConvErr Node
  | .vmap m => do
    let n ← foldEntries c NewNode m
    .ok (n.withChildren (sortChildren n.Children))
  | .varr _ => .error .unexpectedObject
  | .vscalar _ => .error .unexpectedObject
termination_by v => sizeOf v
decreasing_by all_goals (simp_wf <;> omega)

/-- The `for k, o := range m` loop body of `toNode`, folded over the entries
in iteration order, threading the node being built. -/
def foldEntries (c : BaseOriginalToNoder) (n : Node) :
    List (String × Value) → Except ConvErr Node
  | [] => .ok n
  | (k, v) :: rest =>
    match v with
    | .vmap m => do
      let child ← mapToNode c k m
      foldEntries c (n.withChildren (n.Children ++ [child])) rest
    | .varr s => do
      let cs ← sliceToNodes c k s
      foldEntries c (n.withChildren (n.Children ++ cs)) rest
    | .vscalar o => do
      let n2 ← c.addProperty n k o
      foldEntries c n2 rest
termination_by l => sizeOf l
decreasing_by all_goals (simp_wf <;> omega)

/-- `c.mapToNode(k, obj)`: convert the nested map and record the key as the
child's `internalRole` property. -/
def mapToNode (c : BaseOriginalToNoder) (k : String) (m : List (String × Value)) :
    Except ConvErr Node := do
  let n ← toNode c (.vmap m)
  .ok (n.withProperties (setProp n.Properties InternalRoleKey k))
termination_by sizeOf m + 2
decreasing_by all_goals (simp_wf <;> omega)

/-- `c.sliceToNodes(k, s)`: convert every element of the slice, recording the
key as each child's `internalRole` property, preserving slice order. -/
def sliceToNodes (c : BaseOriginalToNoder) (k : String) :
    List Value → Except ConvErr (List Node)
  | [] => .ok []
  | v :: rest => do
    let n ← toNode c v
    let n2 := n.withProperties (setProp n.Properties InternalRoleKey k)
    let ns ← sliceToNodes c k rest
    .ok (n2 :: ns)
termination_by l => sizeOf l
decreasing_by all_goals (simp_wf <;> omega)

end

/-- `c.OriginalToNode(src)` of `original.go`: an empty map fails with
`ErrEmptyAST`; with `topLevelIsRootNode` compiled to `false` the top-level
object must have exactly one key, whose value is converted as the root node;
more than one key fails with `ErrUnexpectedObjectSize`. -/
def BaseOriginalToNoder.OriginalToNode (c : BaseOriginalToNoder)
    (src : List (String × Value)) : Except ConvErr Node :=
  if src.length = 0 then .error .emptyAST
  else if topLevelIsRootNode then .error (.unsupported "top level object as root node")
  else if src.length > 1 then .error (.unexpectedObjectSize 1 src.length)
  else
    match src with
    | (_, obj) :: _ => toNode c obj
    | [] => .error .emptyAST

end UAST

namespace Driver

/-- A JSON value on the wire, as carried by the newline-delimited protocol. -/
inductive JValue where
  | jnull : JValue
  | jbool (b : Bool) : JValue
  | jnum (n : Int) : JValue
  | jstr (s : String) : JValue
  | jarr (elems : List JValue) : JValue
  | jobj (fields : List (String × JValue)) : JValue
deriving Repr

/-- Field lookup in a JSON object. -/
def jlookup : List (String × JValue) → String → Option JValue
  | [], _ => none
  | (k0, v) :: rest, k => if k0 = k then some v else jlookup rest k

/-- One line of process output: either it parses as JSON, or it is raw
non-JSON text (for instance the `y` lines produced by `yes`). -/
inductive WireLine where
  | jsonLine (v : JValue) : WireLine
  | rawLine (s : String) : WireLine
deriving Repr

/-- Modelled from the spec: the request framing
`{"action":"parse","content":<encoded-source>,"encoding":<name>}` of the
protocol framer (its implementation is outside the given sources). -/
def requestLine (content encoding : String) : JValue :=
  .jobj [("action", .jstr "parse"), ("content", .jstr content),
    ("encoding", .jstr encoding)]

/-- The cause carried by a driver failure: deadline elapsed, malformed or
wrong-shaped response, or a failure status explicitly reported by the
process. -/
inductive FailCause where
  | timeoutCause : FailCause
  | protocolViolation : FailCause
  | reportedFailure (msg : String) : FailCause
deriving DecidableEq, Repr

/-- A `Parse` error: the driver is not in the `Running` state, or a driver
failure with a cause. -/
inductive ParseErr where
  | invalidState : ParseErr
  | driverFailure (cause : FailCause) : ParseErr
deriving DecidableEq, Repr

/-- A `Start` error: the external binary could not be spawned. -/
inductive StartErr where
  | startupFailure (path : String) : StartErr
deriving DecidableEq, Repr

/-- Modelled from the spec: response decoding by the protocol framer (its
implementation is outside the given sources).  A line that does not parse as
JSON, or any JSON value other than `\x7b"status":"ok","ast":...\x7d` or
`\x7b"status":"error","message":<string>\x7d`, is a protocol violation
classified as a driver failure; an `error` status is a reported failure. -/
def decodeResponse : WireLine → Except ParseErr JValue
  | .rawLine _ => .error (.driverFailure .protocolViolation)
  | .jsonLine v =>
    match v with
    | .jobj fields =>
      match jlookup fields "status" with
      | some (.jstr "ok") =>
        match jlookup fields "ast" with
        | some ast => .ok ast
        | none => .error (.driverFailure .protocolViolation)
      | some (.jstr "error") =>
        match jlookup fields "message" with
        | some (.jstr msg) => .error (.driverFailure (.reportedFailure msg))
        | _ => .error (.driverFailure .protocolViolation)
      | _ => .error (.driverFailure .protocolViolation)
    | _ => .error (.driverFailure .protocolViolation)

/-- The success shape of the wire format, as the spec states it: a JSON
object whose `status` field is the string `ok` and which carries an `ast`
field.  Defined independently of `decodeResponse` so that the protocol
classification can be checked against it. -/
def okShape : WireLine → Bool
  | .jsonLine (.jobj fields) =>
    match jlookup fields "status", jlookup fields "ast" with
    | some (.jstr s), some _ => s = "ok"
    | _, _ => false
  | _ => false

/-- The failure shape of the wire format, as the spec states it: a JSON
object whose `status` field is the string `error` and whose `message` field
is a string. -/
def errShape : WireLine → Bool
  | .jsonLine (.jobj fields) =>
    match jlookup fields "status", jlookup fields "message" with
    | some (.jstr s), some (.jstr _) => s = "error"
    | _, _ => false
  | _ => false

/-- The transport lifecycle states of the spec. -/
inductive ProcState where
  | NotStarted : ProcState
  | Running : ProcState
  | Stopped : ProcState
deriving DecidableEq, Repr

/-- The transport: the ordered list of request contents written to the
process so far, and how many response lines have been consumed so far.  The
external process answers requests in the order received, so the i-th
response line is a function of the i-th written request. -/
structure Transport where
  written : List String
  nread : Nat
deriving DecidableEq, Repr

/-- Modelled from the spec: the driver client state (its implementation is
outside the given sources; only its tests are).  `debt` is the length of the
debt queue; `staleAnswers` is the ghost list of request indices abandoned by
timed-out calls whose answers have not yet been drained, one entry per debt
entry. -/
structure DriverClient where
  path : String
  status : ProcState
  trans : Transport
  debt : Nat
  staleAnswers : List Nat
deriving DecidableEq, Repr

/-- `NewDriverAt(path, ...)`: a fresh, not yet started driver client. -/
def NewDriverAt (path : String) : DriverClient :=
  { path := path, status := .NotStarted, trans := { written := [], nread := 0 },
    debt := 0, staleAnswers := [] }

/-- Modelled from the spec: `Start` spawns the configured binary and moves
the client to `Running`, or fails with a startup error when the binary is
missing or unexecutable (`exec` says which paths can be spawned) and leaves
the state unchanged. -/
def start (exec : String → Bool) (d : DriverClient) :
    Except StartErr Unit × DriverClient :=
  if exec d.path then (.ok (), { d with status := .Running })
  else (.error (.startupFailure d.path), d)

/-- The drain step of the response router: read and discard one stale
response line for every entry currently in the debt queue, decrementing the
debt to zero, before anything is sent. -/
def drain (d : DriverClient) : DriverClient :=
  { d with
    trans := { d.trans with nread := d.trans.nread + d.debt }
    debt := 0
    staleAnswers := [] }

/-- Modelled from the spec: one `Parse` call against the response router
(the implementation is outside the given sources; only its tests are).  The
external process is `f`, mapping a request content to the response line it
will eventually write; `timesOut` says whether this call's deadline fires
before its own response line arrives (spec 4.4 steps 3-5; the drain of step
1 runs to completion).  Outside `Running` the call fails with an
invalid-state error.  Otherwise: drain the debt queue, send the request,
then race the read against the deadline.  If the deadline wins the call
fails with a timeout cause and pushes one entry onto the debt queue — the
transport is not reset, the process will still write the answer.  If the
read wins, the next unread response line is decoded and classified as this
call's result. -/
def parse (f : String → WireLine) (d : DriverClient) (src : String)
    (timesOut : Bool) : Except ParseErr JValue × DriverClient :=
  if d.status ≠ .Running then (.error .invalidState, d)
  else
    let d1 := drain d
    let reqIdx := d1.trans.written.length
    let d2 := { d1 with trans := { d1.trans with written := d1.trans.written ++ [src] } }
    if timesOut then
      (.error (.driverFailure .timeoutCause),
        { d2 with
          debt := d2.debt + 1
          staleAnswers := d2.staleAnswers ++ [reqIdx] })
    else
      let line := f (d2.trans.written.getD d2.trans.nread "")
      (decodeResponse line,
        { d2 with trans := { d2.trans with nread := d2.trans.nread + 1 } })

/-- A process whose answer is a deterministic function `g` of its input: it
responds to request content `s` with the well-shaped success line carrying
`g s`. -/
def okResponder (g : String → JValue) (s : String) : WireLine :=
  .jsonLine (.jobj [("status", .jstr "ok"), ("ast", g s)])

/-- A sequence of serialized `Parse` calls (the single-flight lock of the
driver client serializes concurrent callers into exactly such a sequence, in
the order their requests are issued); each call is an input together with
its deadline outcome.  Results are collected in issue order. -/
def runCalls (f : String → WireLine) (d : DriverClient) :
    List (String × Bool) → List (Except ParseErr JValue) × DriverClient
  | [] => ([], d)
  | (src, b) :: rest =>
    let r := parse f d src b
    let rs := runCalls f r.2 rest
    (r.1 :: rs.1, rs.2)

/-- The state consistency of the response router: every written request's
response line is either already consumed or owed to exactly one abandoned
timed-out call, so the debt equals both the ghost count of undrained
timed-out calls and the number of unread response lines. -/
def Inv (d : DriverClient) : Prop :=
  d.debt = d.staleAnswers.length ∧ d.trans.nread + d.debt = d.trans.written.length

end Driver

namespace Codec

/-- The encoding variants of the codec. -/
inductive Encoding where
  | UTF8 : Encoding
  | Base64 : Encoding
deriving DecidableEq, Repr

/-- The standard base64 alphabet: sextet value to ASCII code
(`A-Z`, `a-z`, `0-9`, `+`, `/`). -/
def b64Char (n : Nat) : Nat :=
  if n < 26 then 65 + n
  else if n < 52 then 97 + (n - 26)
  else if n < 62 then 48 + (n - 52)
  else if n = 62 then 43
  else 47

/-- The inverse alphabet: ASCII code to sextet value, `none` for a character
outside the alphabet. -/
def b64Index (c : Nat) : Option Nat :=
  if 65 ≤ c ∧ c ≤ 90 then some (c - 65)
  else if 97 ≤ c ∧ c ≤ 122 then some (c - 97 + 26)
  else if 48 ≤ c ∧ c ≤ 57 then some (c - 48 + 52)
  else if c = 43 then some 62
  else if c = 47 then some 63
  else none

/-- The ASCII code of the base64 padding character. -/
def padChar : Nat := 61

/-- Standard base64 encoding of a byte sequence, three bytes to four
characters, with `=` padding on the final partial group. -/
def b64EncodeBytes : List Nat → List Nat
  | [] => []
  | [b0] => [b64Char (b0 / 4), b64Char (b0 % 4 * 16), padChar, padChar]
  | [b0, b1] =>
    [b64Char (b0 / 4), b64Char (b0 % 4 * 16 + b1 / 16), b64Char (b1 % 16 * 4), padChar]
  | b0 :: b1 :: b2 :: rest =>
    b64Char (b0 / 4) :: b64Char (b0 % 4 * 16 + b1 / 16) ::
      b64Char (b1 % 16 * 4 + b2 / 64) :: b64Char (b2 % 64) ::
      b64EncodeBytes rest

/-- Standard base64 decoding: four characters to three bytes, handling `=`
padding on the final group, failing on any character outside the alphabet or
on a length that is not a multiple of four. -/
def b64DecodeBytes : List Nat → Except String (List Nat)
  | [] => .ok []
  | c0 :: c1 :: c2 :: c3 :: rest =>
    match b64Index c0, b64Index c1 with
    | some s0, some s1 =>
      if c2 = padChar ∧ c3 = padChar ∧ rest = [] then
        .ok [s0 * 4 + s1 / 16]
      else
        match b64Index c2 with
        | some s2 =>
          if c3 = padChar ∧ rest = [] then
            .ok [s0 * 4 + s1 / 16, s1 % 16 * 16 + s2 / 4]
          else
            match b64Index c3 with
            | some s3 => do
              let bs ← b64DecodeBytes rest
              .ok ((s0 * 4 + s1 / 16) :: (s1 % 16 * 16 + s2 / 4) ::
                (s2 % 4 * 64 + s3) :: bs)
            | none => .error "illegal base64 data"
        | none => .error "illegal base64 data"
    | _, _ => .error "illegal base64 data"
  | _ => .error "illegal base64 data"

/-- Modelled from the spec: `Encode(text) -> (wireText, error)` (the codec
implementation is outside the given sources; only its tests are).  Texts are
byte sequences; UTF8 is the identity transform, Base64 is standard base64.
Neither variant can fail on encode. -/
def Encoding.Encode : Encoding → List Nat → Except String (List Nat)
  | .UTF8, s => .ok s
  | .Base64, s => .ok (b64EncodeBytes s)

/-- Modelled from the spec: `Decode(wireText) -> (text, error)`, the inverse
transform; Base64 rejects malformed wire text. -/
def Encoding.Decode : Encoding → List Nat → Except String (List Nat)
  | .UTF8, s => .ok s
  | .Base64, s => b64DecodeBytes s

/-- The bytes of the string `test message`. -/
def testMessageBytes : List Nat :=
  [116, 101, 115, 116, 32, 109, 101, 115, 115, 97, 103, 101]

/-- The bytes of the string `dGVzdCBtZXNzYWdl`. -/
def testMessageBase64 : List Nat :=
  [100, 71, 86, 122, 100, 67, 66, 116, 90, 88, 78, 122, 89, 87, 100, 108]

end Codec

namespace Codec

/-- Every base64 alphabet character is decoded back to its sextet value. -/
theorem b64Index_b64Char : ∀ n, n < 64 → b64Index (b64Char n) = some n := by
  decide

/-- No base64 alphabet character is the padding character. -/
theorem b64Char_ne_pad : ∀ n, n < 64 → b64Char n ≠ padChar := by
  decide

/-- Decoding inverts encoding on any byte sequence. -/
theorem b64_roundtrip :
    ∀ bs : List Nat, (∀ b ∈ bs, b < 256) → b64DecodeBytes (b64EncodeBytes bs) = .ok bs
  | [], _ => rfl
  | [b0], h => by
    have h0 : b0 < 256 := h b0 (by simp)
    have e0 : b64Index (b64Char (b0 / 4)) = some (b0 / 4) :=
      b64Index_b64Char _ (by omega)
    have e1 : b64Index (b64Char (b0 % 4 * 16)) = some (b0 % 4 * 16) :=
      b64Index_b64Char _ (by omega)
    simp only [b64EncodeBytes, b64DecodeBytes, e0, e1]
    simp [padChar]
    omega
  | [b0, b1], h => by
    have h0 : b0 < 256 := h b0 (by simp)
    have h1 : b1 < 256 := h b1 (by simp)
    have e0 : b64Index (b64Char (b0 / 4)) = some (b0 / 4) :=
      b64Index_b64Char _ (by omega)
    have e1 : b64Index (b64Char (b0 % 4 * 16 + b1 / 16)) = some (b0 % 4 * 16 + b1 / 16) :=
      b64Index_b64Char _ (by omega)
    have e2 : b64Index (b64Char (b1 % 16 * 4)) = some (b1 % 16 * 4) :=
      b64Index_b64Char _ (by omega)
    have ne2 : b64Char (b1 % 16 * 4) ≠ padChar := b64Char_ne_pad _ (by omega)
    simp only [b64EncodeBytes, b64DecodeBytes, e0, e1, e2]
    have r0 : b0 / 4 * 4 + (b0 % 4 * 16 + b1 / 16) / 16 = b0 := by omega
    simp [ne2, r0]
    omega
  | b0 :: b1 :: b2 :: rest, h => by
    have h0 : b0 < 256 := h b0 (by simp)
    have h1 : b1 < 256 := h b1 (by simp)
    have h2 : b2 < 256 := h b2 (by simp)
    have ih : b64DecodeBytes (b64EncodeBytes rest) = .ok rest :=
      b64_roundtrip rest (fun b hb => h b (by simp [hb]))
    have e0 : b64Index (b64Char (b0 / 4)) = some (b0 / 4) :=
      b64Index_b64Char _ (by omega)
    have e1 : b64Index (b64Char (b0 % 4 * 16 + b1 / 16)) = some (b0 % 4 * 16 + b1 / 16) :=
      b64Index_b64Char _ (by omega)
    have e2 : b64Index (b64Char (b1 % 16 * 4 + b2 / 64)) = some (b1 % 16 * 4 + b2 / 64) :=
      b64Index_b64Char _ (by omega)
    have e3 : b64Index (b64Char (b2 % 64)) = some (b2 % 64) :=
      b64Index_b64Char _ (by omega)
    have ne2 : b64Char (b1 % 16 * 4 + b2 / 64) ≠ padChar := b64Char_ne_pad _ (by omega)
    have ne3 : b64Char (b2 % 64) ≠ padChar := b64Char_ne_pad _ (by omega)
    simp only [b64EncodeBytes, b64DecodeBytes, e0, e1, e2, e3]
    have r0 : b0 / 4 * 4 + (b0 % 4 * 16 + b1 / 16) / 16 = b0 := by omega
    have r1 : (b0 % 4 * 16 + b1 / 16) % 16 * 16 + (b1 % 16 * 4 + b2 / 64) / 4 = b1 := by
      omega
    have r2 : (b1 % 16 * 4 + b2 / 64) % 4 * 64 + b2 % 64 = b2 := by omega
    simp [ne2, ne3, ih, r0, r1, r2]
    rfl

/-- C2: for every input string (byte sequence) `x` and every encoding
variant — UTF8 and Base64 — `Encode` succeeds, and `Decode (Encode x) = x`. -/
theorem c2_round_trip (e : Encoding) (x : List Nat) (hx : ∀ b ∈ x, b < 256) :
    ∃ y, e.Encode x = .ok y ∧ e.Decode y = .ok x := by
  cases e with
  | UTF8 => exact ⟨x, rfl, rfl⟩
  | Base64 => exact ⟨b64EncodeBytes x, rfl, b64_roundtrip x hx⟩

/-- Witness for C2: the round trip evaluated on the concrete input
`test message` under Base64. -/
theorem c2_round_trip_witness :
    ∃ y, Encoding.Base64.Encode testMessageBytes = .ok y ∧
      Encoding.Base64.Decode y = .ok testMessageBytes :=
  c2_round_trip .Base64 testMessageBytes (by decide)

/-- C6: `test message` encodes under Base64 to exactly `dGVzdCBtZXNzYWdl`,
which decodes back to `test message`; under UTF8 the input is returned
unchanged. -/
theorem c6_test_message_example :
    Encoding.Base64.Encode testMessageBytes = .ok testMessageBase64 ∧
    Encoding.Base64.Decode testMessageBase64 = .ok testMessageBytes ∧
    Encoding.UTF8.Encode testMessageBytes = .ok testMessageBytes :=
  ⟨rfl, rfl, rfl⟩

end Codec

namespace Driver

/-- A well-shaped success line decodes to exactly the tree it carries. -/
theorem decodeResponse_okResponder (g : String → JValue) (s : String) :
    decodeResponse (okResponder g s) = .ok (g s) := rfl

/-- Unfolding one successful `parse`: from a consistent running state the
call drains the whole debt queue, appends its request, reads the response to
its own request — the line the process computes from this call's input — and
leaves a consistent state with an empty debt queue. -/
theorem parse_spec_success (f : String → WireLine) (d : DriverClient) (src : String)
    (hr : d.status = .Running) (hinv : Inv d) :
    parse f d src false =
      (decodeResponse (f src),
        { d with
          trans := { written := d.trans.written ++ [src], nread := d.trans.written.length + 1 }
          debt := 0
          staleAnswers := [] }) := by
  obtain ⟨hdebt, hlen⟩ := hinv
  have hget : (d.trans.written ++ [src])[d.trans.nread + d.debt]?.getD "" = src := by
    rw [hlen]
    simp
  simp [parse, drain, hr, hget]
  omega

/-- Unfolding one timed-out `parse`: from a consistent running state the
call drains the whole debt queue, appends its request, fails with a timeout
cause, and leaves a consistent state owing exactly one stale answer — the
one to this call's request. -/
theorem parse_spec_timeout (f : String → WireLine) (d : DriverClient) (src : String)
    (hr : d.status = .Running) (hinv : Inv d) :
    parse f d src true =
      (.error (.driverFailure .timeoutCause),
        { d with
          trans := { written := d.trans.written ++ [src], nread := d.trans.written.length }
          debt := 1
          staleAnswers := [d.trans.written.length] }) := by
  obtain ⟨hdebt, hlen⟩ := hinv
  simp [parse, drain, hr]
  omega

/-- `parse` never changes the lifecycle status. -/
theorem parse_status (f : String → WireLine) (d : DriverClient) (src : String)
    (b : Bool) : (parse f d src b).2.status = d.status := by
  by_cases hr : d.status = .Running
  · simp [parse, drain, hr]
    split <;> rfl
  · simp [parse, hr]

/-- `parse` preserves state consistency, timeout or not, from any state. -/
theorem parse_inv (f : String → WireLine) (d : DriverClient) (src : String)
    (b : Bool) (hinv : Inv d) : Inv (parse f d src b).2 := by
  by_cases hr : d.status = .Running
  · cases b
    · rw [parse_spec_success f d src hr hinv]
      obtain ⟨hdebt, hlen⟩ := hinv
      constructor <;> simp <;> omega
    · rw [parse_spec_timeout f d src hr hinv]
      obtain ⟨hdebt, hlen⟩ := hinv
      constructor <;> simp <;> omega
  · simpa [parse, hr] using hinv

/-- A line that matches neither response shape is classified as a protocol
violation. -/
theorem decode_violation (l : WireLine) (h1 : okShape l = false)
    (h2 : errShape l = false) :
    decodeResponse l = .error (.driverFailure .protocolViolation) := by
  cases l with
  | rawLine s => rfl
  | jsonLine v =>
    cases v with
    | jobj fields =>
      simp only [okShape, errShape] at h1 h2
      simp only [decodeResponse]
      rcases hst : jlookup fields "status" with _ | jv
      · simp [hst]
      · cases jv with
        | jstr s =>
          rw [hst] at h1 h2
          by_cases hok : s = "ok"
          · subst hok
            rcases hast : jlookup fields "ast" with _ | ast
            · simp [hast]
            · rw [hast] at h1
              simp at h1
          · by_cases herr : s = "error"
            · subst herr
              rcases hmsg : jlookup fields "message" with _ | mv
              · simp [hmsg]
              · cases mv with
                | jstr m =>
                  rw [hmsg] at h2
                  simp at h2
                | jnull => simp [hmsg]
                | jbool b => simp [hmsg]
                | jnum n => simp [hmsg]
                | jarr xs => simp [hmsg]
                | jobj fs2 => simp [hmsg]
            · simp [hok, herr]
        | jnull => simp [hst]
        | jbool b => simp [hst]
        | jnum n => simp [hst]
        | jarr xs => simp [hst]
        | jobj fs2 => simp [hst]
    | jnull => rfl
    | jbool b => rfl
    | jnum n => rfl
    | jstr s => rfl
    | jarr xs => rfl

/-- The i-th serialized call receives the answer to its own i-th request. -/
theorem runCalls_ok (g : String → JValue) :
    ∀ (srcs : List String) (d : DriverClient), d.status = .Running → Inv d →
      (runCalls (okResponder g) d (srcs.map fun s => (s, false))).1 =
        srcs.map fun s => Except.ok (g s)
  | [], _, _, _ => rfl
  | s :: rest, d, hr, hinv => by
    have hnext_status : (parse (okResponder g) d s false).2.status = .Running := by
      rw [parse_status]
      exact hr
    have hnext_inv : Inv (parse (okResponder g) d s false).2 :=
      parse_inv _ _ _ _ hinv
    have ih := runCalls_ok g rest (parse (okResponder g) d s false).2 hnext_status hnext_inv
    have hs := parse_spec_success (okResponder g) d s hr hinv
    simp only [List.map_cons, runCalls]
    rw [ih, hs]
    rfl

/-- C1: a `Parse` call whose driver takes longer than the call's deadline
fails with a driver failure whose cause is a timeout, and an immediately
following call with no time pressure on the same driver instance succeeds
with the answer to its own request — not the stale answer left behind by the
timed-out call. -/
theorem c1_timeout_isolation (g : String → JValue) (d : DriverClient)
    (s1 s2 : String) (hr : d.status = .Running) (hinv : Inv d) :
    (parse (okResponder g) d s1 true).1 = .error (.driverFailure .timeoutCause) ∧
    (parse (okResponder g) (parse (okResponder g) d s1 true).2 s2 false).1 =
      .ok (g s2) := by
  have ht := parse_spec_timeout (okResponder g) d s1 hr hinv
  have hst1 : (parse (okResponder g) d s1 true).2.status = .Running := by
    rw [parse_status]
    exact hr
  have hinv1 : Inv (parse (okResponder g) d s1 true).2 := parse_inv _ _ _ _ hinv
  have hs := parse_spec_success (okResponder g) _ s2 hst1 hinv1
  constructor
  · rw [ht]
  · rw [hs]
    exact decodeResponse_okResponder g s2

/-- A running driver client in a consistent state with no outstanding debt,
as produced by a successful `Start` on a fresh client. -/
def runningClient (path : String) : DriverClient :=
  { path := path
    status := .Running
    trans := { written := [], nread := 0 }
    debt := 0
    staleAnswers := [] }

/-- Witness for C1: a timed-out call for `first` followed by an untimed call
for `second` on a fresh running driver; the second call gets the answer to
`second`. -/
theorem c1_timeout_isolation_witness :
    (parse (okResponder .jstr) (runningClient "mock") "first" true).1 =
      .error (.driverFailure .timeoutCause) ∧
    (parse (okResponder .jstr)
        (parse (okResponder .jstr) (runningClient "mock") "first" true).2
        "second" false).1 = .ok (.jstr "second") :=
  c1_timeout_isolation JValue.jstr (runningClient "mock") "first" "second" rfl
    ⟨rfl, rfl⟩

/-- C3: N serialized `Parse` calls (the single-flight lock serializes
concurrent callers into exactly this sequence, in request-issue order)
against a driver whose answer is the deterministic function `g` of its input
each receive exactly `g` of their own input, and the list of responses is
delivered in the same order the requests were issued. -/
theorem c3_concurrent_correctness (g : String → JValue) (d : DriverClient)
    (srcs : List String) (hn : srcs.length ≤ 1000) (hr : d.status = .Running)
    (hinv : Inv d) :
    (runCalls (okResponder g) d (srcs.map fun s => (s, false))).1 =
      srcs.map fun s => Except.ok (g s) :=
  runCalls_ok g srcs d hr hinv

/-- Witness for C3: three serialized calls on a fresh running driver each
get the answer to their own input, in issue order. -/
theorem c3_concurrent_correctness_witness :
    (runCalls (okResponder .jstr) (runningClient "mock")
        (["foo_0", "foo_1", "foo_2"].map fun s => (s, false))).1 =
      ["foo_0", "foo_1", "foo_2"].map fun s => Except.ok (JValue.jstr s) :=
  c3_concurrent_correctness JValue.jstr (runningClient "mock")
    ["foo_0", "foo_1", "foo_2"] (by decide) rfl ⟨rfl, rfl⟩

/-- C4: the debt queue length always equals the number of timed-out calls
whose stale answer has not yet been drained (`Inv`, holding at construction
and preserved by `Start` and by every `Parse`, timed out or not), and the
drain step consumes the entire debt queue — one discarded response per
entry, decrementing the debt to zero, whatever the size of the queue —
before anything is sent. -/
theorem c4_debt_invariant (f : String → WireLine) :
    (∀ path, Inv (NewDriverAt path)) ∧
    (∀ exec d, Inv d → Inv (start exec d).2) ∧
    (∀ d src b, Inv d → Inv (parse f d src b).2) ∧
    (∀ d : DriverClient, (drain d).debt = 0 ∧ (drain d).staleAnswers = [] ∧
      (drain d).trans.nread = d.trans.nread + d.debt ∧
      (drain d).trans.written = d.trans.written) := by
  refine ⟨fun _ => ⟨rfl, rfl⟩, ?_, fun d src b h => parse_inv f d src b h,
    fun d => ⟨rfl, rfl, rfl, rfl⟩⟩
  intro exec d hd
  unfold start
  split
  · exact hd
  · exact hd

/-- A driver client owing three stale answers after consecutive timeouts. -/
def indebtedClient : DriverClient :=
  { path := "mock"
    status := .Running
    trans := { written := ["a", "b", "c"], nread := 0 }
    debt := 3
    staleAnswers := [0, 1, 2] }

/-- Witness for C4: on a client whose debt queue holds three entries, a
`Parse` preserves the invariant and the drain consumes all three entries
before the send. -/
theorem c4_debt_invariant_witness :
    Inv (parse (fun s => okResponder .jstr s) indebtedClient "x" false).2 ∧
    (drain indebtedClient).debt = 0 ∧
    (drain indebtedClient).trans.nread =
      indebtedClient.trans.nread + indebtedClient.debt :=
  ⟨(c4_debt_invariant (fun s => okResponder .jstr s)).2.2.1 indebtedClient "x" false
      ⟨rfl, rfl⟩,
    ((c4_debt_invariant (fun s => okResponder .jstr s)).2.2.2 indebtedClient).1,
    ((c4_debt_invariant (fun s => okResponder .jstr s)).2.2.2 indebtedClient).2.2.1⟩

/-- C5: a `Parse` call whose driver emits a response line that does not
parse as JSON, or that matches neither the success shape nor the failure
shape — including a process that echoes its stdin verbatim and one that
emits unrelated text — fails with a driver failure classified as a protocol
violation. -/
theorem c5_protocol_violation (f : String → WireLine) (d : DriverClient)
    (src : String) (hr : d.status = .Running) (hinv : Inv d)
    (h1 : okShape (f src) = false) (h2 : errShape (f src) = false) :
    (parse f d src false).1 = .error (.driverFailure .protocolViolation) := by
  rw [parse_spec_success f d src hr hinv]
  exact decode_violation _ h1 h2

/-- A process that echoes its own request line back: the line is valid JSON
but has the request shape, not a response shape. -/
def echoProcess (s : String) : WireLine := .jsonLine (requestLine s "utf8")

/-- A process that answers `y` to everything: the line is not JSON. -/
def yesProcess (_ : String) : WireLine := .rawLine "y"

/-- Witness for C5: both the echoing process and the `y`-emitting process
make `Parse` fail with a protocol violation. -/
theorem c5_protocol_violation_witness :
    (parse echoProcess (runningClient "echo") "foo" false).1 =
      .error (.driverFailure .protocolViolation) ∧
    (parse yesProcess (runningClient "yes") "foo" false).1 =
      .error (.driverFailure .protocolViolation) :=
  ⟨c5_protocol_violation echoProcess (runningClient "echo") "foo" rfl ⟨rfl, rfl⟩
      rfl rfl,
    c5_protocol_violation yesProcess (runningClient "yes") "foo" rfl ⟨rfl, rfl⟩
      rfl rfl⟩

/-- C7: constructing a driver at a path that cannot be spawned makes `Start`
fail with a startup error and leaves the client out of the `Running` state,
so every subsequent `Parse` fails with an invalid-state error without
touching the state: `Parse` is never reachable. -/
theorem c7_bad_path (exec : String → Bool) (path : String)
    (hbad : exec path = false) :
    (start exec (NewDriverAt path)).1 = .error (.startupFailure path) ∧
    (start exec (NewDriverAt path)).2.status = .NotStarted ∧
    ∀ (f : String → WireLine) (src : String) (b : Bool),
      parse f (start exec (NewDriverAt path)).2 src b =
        (.error .invalidState, (start exec (NewDriverAt path)).2) := by
  have h2 : (start exec (NewDriverAt path)).2 = NewDriverAt path := by
    simp [start, NewDriverAt, hbad]
  refine ⟨by simp [start, NewDriverAt, hbad], by rw [h2]; rfl, ?_⟩
  intro f src b
  rw [h2]
  simp [parse, NewDriverAt]

/-- Witness for C7: a driver at a non-existent path in an environment where
no path can be spawned. -/
theorem c7_bad_path_witness :
    (start (fun _ => false) (NewDriverAt "non-existent")).1 =
      .error (.startupFailure "non-existent") ∧
    (start (fun _ => false) (NewDriverAt "non-existent")).2.status = .NotStarted ∧
    ∀ (f : String → WireLine) (src : String) (b : Bool),
      parse f (start (fun _ => false) (NewDriverAt "non-existent")).2 src b =
        (.error .invalidState, (start (fun _ => false) (NewDriverAt "non-existent")).2) :=
  c7_bad_path (fun _ => false) "non-existent" rfl

end Driver


namespace UAST

@[simp] theorem children_withInternalType (n : Node) (t : String) :
    (n.withInternalType t).Children = n.Children := by cases n; rfl

@[simp] theorem children_withProperties (n : Node) (p : List (String × String)) :
    (n.withProperties p).Children = n.Children := by cases n; rfl

@[simp] theorem children_withToken (n : Node) (tk : Option String) :
    (n.withToken tk).Children = n.Children := by cases n; rfl

@[simp] theorem children_withStartPosition (n : Node) (sp : Option Position) :
    (n.withStartPosition sp).Children = n.Children := by cases n; rfl

@[simp] theorem children_withChildren (n : Node) (cs : List Node) :
    (n.withChildren cs).Children = cs := by cases n; rfl

@[simp] theorem except_bind_ok {ε α β : Type} (a : α) (f : α → Except ε β) :
    (Except.ok a >>= f) = f a := rfl

@[simp] theorem except_bind_error {ε α β : Type} (e : ε) (f : α → Except ε β) :
    ((Except.error e : Except ε α) >>= f) = Except.error e := rfl

/-- An error that `toNode` and its helpers can produce: never the two
top-level-only errors of `OriginalToNode`. -/
def safeErr (e : ConvErr) : Prop :=
  e ≠ .emptyAST ∧ ∀ a b, e ≠ .unexpectedObjectSize a b

/-- `setInternalKey` fails only with a two-internal-keys error. -/
theorem setInternalKey_err (c : BaseOriginalToNoder) (n : Node) (k : String)
    (e : ConvErr) (h : c.setInternalKey n k = .error e) : safeErr e := by
  by_cases hit : n.InternalType = ""
  · simp [BaseOriginalToNoder.setInternalKey, hit] at h
  · simp [BaseOriginalToNoder.setInternalKey, hit] at h
    subst h
    simp [safeErr]

/-- `toUint32` fails only with numeric conversion errors. -/
theorem toUint32_err (o : Scalar) (e : ConvErr) (h : toUint32 o = .error e) :
    safeErr e := by
  cases o with
  | sstr s =>
    simp only [toUint32] at h
    split at h
    · exact absurd h (by simp)
    · simp at h
      subst h
      simp [safeErr]
  | sint i => simp [toUint32] at h
  | sbool b =>
    simp [toUint32] at h
    subst h
    simp [safeErr]

/-- `addProperty` fails only with per-node errors, never the two
top-level-only errors. -/
theorem addProperty_err (c : BaseOriginalToNoder) (n : Node) (k : String)
    (o : Scalar) (e : ConvErr) (h : c.addProperty n k o = .error e) : safeErr e := by
  by_cases h1 : c.isTokenKey k
  · by_cases h2 : n.Token = none
    · simp [BaseOriginalToNoder.addProperty, h1, h2] at h
    · simp [BaseOriginalToNoder.addProperty, h1, h2] at h
      subst h
      simp [safeErr]
  · by_cases h3 : c.InternalTypeKey = k
    · rcases hsk : c.setInternalKey n (sprint o) with e2 | nk
      · simp [BaseOriginalToNoder.addProperty, h1, h3, hsk] at h
        subst h
        exact setInternalKey_err c n (sprint o) e2 hsk
      · rcases hsy : c.syntheticToken (sprint o) with _ | tk
        · simp [BaseOriginalToNoder.addProperty, h1, h3, hsk, hsy] at h
        · by_cases htk : nk.Token = none
          · simp [BaseOriginalToNoder.addProperty, h1, h3, hsk, hsy, htk] at h
          · simp [BaseOriginalToNoder.addProperty, h1, h3, hsk, hsy, htk] at h
            subst h
            simp [safeErr]
    · by_cases h4 : c.OffsetKey = k
      · rcases hu : toUint32 o with e2 | i
        · simp [BaseOriginalToNoder.addProperty, h1, h3, h4, hu] at h
          subst h
          exact toUint32_err o e2 hu
        · simp [BaseOriginalToNoder.addProperty, h1, h3, h4, hu] at h
      · by_cases h5 : c.LineKey = k
        · rcases hu : toUint32 o with e2 | i
          · simp [BaseOriginalToNoder.addProperty, h1, h3, h4, h5, hu] at h
            subst h
            exact toUint32_err o e2 hu
          · simp [BaseOriginalToNoder.addProperty, h1, h3, h4, h5, hu] at h
        · simp [BaseOriginalToNoder.addProperty, h1, h3, h4, h5] at h

/-- `addProperty` never touches the children of the node. -/
theorem addProperty_children (c : BaseOriginalToNoder) (n : Node) (k : String)
    (o : Scalar) (n2 : Node) (h : c.addProperty n k o = .ok n2) :
    n2.Children = n.Children := by
  by_cases h1 : c.isTokenKey k
  · by_cases h2 : n.Token = none
    · simp [BaseOriginalToNoder.addProperty, h1, h2] at h
      rw [← h]
      simp
    · simp [BaseOriginalToNoder.addProperty, h1, h2] at h
  · by_cases h3 : c.InternalTypeKey = k
    · rcases hsk : c.setInternalKey n (sprint o) with e2 | nk
      · simp [BaseOriginalToNoder.addProperty, h1, h3, hsk] at h
      · have hnk : nk.Children = n.Children := by
          by_cases hit : n.InternalType = ""
          · simp [BaseOriginalToNoder.setInternalKey, hit] at hsk
            rw [← hsk]
            simp
          · simp [BaseOriginalToNoder.setInternalKey, hit] at hsk
        rcases hsy : c.syntheticToken (sprint o) with _ | tk
        · simp [BaseOriginalToNoder.addProperty, h1, h3, hsk, hsy] at h
          rw [← h]
          exact hnk
        · by_cases htk : nk.Token = none
          · simp [BaseOriginalToNoder.addProperty, h1, h3, hsk, hsy, htk] at h
            rw [← h]
            simpa using hnk
          · simp [BaseOriginalToNoder.addProperty, h1, h3, hsk, hsy, htk] at h
    · by_cases h4 : c.OffsetKey = k
      · rcases hu : toUint32 o with e2 | i
        · simp [BaseOriginalToNoder.addProperty, h1, h3, h4, hu] at h
        · simp [BaseOriginalToNoder.addProperty, h1, h3, h4, hu] at h
          rw [← h]
          simp
      · by_cases h5 : c.LineKey = k
        · rcases hu : toUint32 o with e2 | i
          · simp [BaseOriginalToNoder.addProperty, h1, h3, h4, h5, hu] at h
          · simp [BaseOriginalToNoder.addProperty, h1, h3, h4, h5, hu] at h
            rw [← h]
            simp
        · simp [BaseOriginalToNoder.addProperty, h1, h3, h4, h5] at h
          rw [← h]
          simp

end UAST

namespace UAST

mutual

/-- `toNode` never produces the top-level-only errors. -/
theorem toNode_err (c : BaseOriginalToNoder) :
    ∀ (v : Value) (e : ConvErr), toNode c v = .error e → safeErr e
  | .vmap m, e => fun h => by
    simp only [toNode] at h
    rcases hfe : foldEntries c NewNode m with e2 | n
    · rw [hfe] at h
      simp at h
      subst h
      exact foldEntries_err c NewNode m e2 hfe
    · rw [hfe] at h
      simp at h
  | .varr xs, e => fun h => by
    simp only [toNode] at h
    simp at h
    subst h
    simp [safeErr]
  | .vscalar s, e => fun h => by
    simp only [toNode] at h
    simp at h
    subst h
    simp [safeErr]
termination_by v e => sizeOf v
decreasing_by all_goals (simp_wf <;> omega)

/-- The entry fold of `toNode` never produces the top-level-only errors. -/
theorem foldEntries_err (c : BaseOriginalToNoder) :
    ∀ (n : Node) (l : List (String × Value)) (e : ConvErr),
      foldEntries c n l = .error e → safeErr e
  | n, [], e => fun h => by simp [foldEntries] at h
  | n, (k, v) :: rest, e => fun h => by
    cases v with
    | vmap m =>
      simp only [foldEntries] at h
      rcases hmc : mapToNode c k m with e2 | child
      · rw [hmc] at h
        simp at h
        subst h
        exact mapToNode_err c k m e2 hmc
      · rw [hmc] at h
        simp at h
        exact foldEntries_err c (n.withChildren (n.Children ++ [child])) rest e h
    | varr s =>
      simp only [foldEntries] at h
      rcases hsn : sliceToNodes c k s with e2 | cs
      · rw [hsn] at h
        simp at h
        subst h
        exact sliceToNodes_err c k s e2 hsn
      · rw [hsn] at h
        simp at h
        exact foldEntries_err c (n.withChildren (n.Children ++ cs)) rest e h
    | vscalar o =>
      simp only [foldEntries] at h
      rcases hap : c.addProperty n k o with e2 | n2
      · rw [hap] at h
        simp at h
        subst h
        exact addProperty_err c n k o e2 hap
      · rw [hap] at h
        simp at h
        exact foldEntries_err c n2 rest e h
termination_by n l e => sizeOf l
decreasing_by all_goals (simp_wf <;> omega)

/-- `mapToNode` never produces the top-level-only errors. -/
theorem mapToNode_err (c : BaseOriginalToNoder) :
    ∀ (k : String) (m : List (String × Value)) (e : ConvErr),
      mapToNode c k m = .error e → safeErr e
  | k, m, e => fun h => by
    simp only [mapToNode] at h
    rcases htn : toNode c (.vmap m) with e2 | n
    · rw [htn] at h
      simp at h
      subst h
      exact toNode_err c (.vmap m) e2 htn
    · rw [htn] at h
      simp at h
termination_by k m e => sizeOf m + 2
decreasing_by all_goals (simp_wf <;> omega)

/-- `sliceToNodes` never produces the top-level-only errors. -/
theorem sliceToNodes_err (c : BaseOriginalToNoder) :
    ∀ (k : String) (l : List Value) (e : ConvErr),
      sliceToNodes c k l = .error e → safeErr e
  | k, [], e => fun h => by simp [sliceToNodes] at h
  | k, v :: rest, e => fun h => by
    simp only [sliceToNodes] at h
    rcases htn : toNode c v with e2 | n
    · rw [htn] at h
      simp at h
      subst h
      exact toNode_err c v e2 htn
    · rw [htn] at h
      simp at h
      rcases hsn : sliceToNodes c k rest with e2 | ns
      · rw [hsn] at h
        simp at h
        subst h
        exact sliceToNodes_err c k rest e2 hsn
      · rw [hsn] at h
        simp at h
termination_by k l e => sizeOf l
decreasing_by all_goals (simp_wf <;> omega)

end

/-- C9: for a scalar entry whose key is not a token key, not the
`InternalTypeKey`, not the `OffsetKey`, and not the `LineKey`, the converter
stores `fmt.Sprint(0)` — the constant string `0` — as the node's property
value for that key, whatever the entry's actual value: the original value is
discarded. -/
theorem c9_default_property_is_zero (c : BaseOriginalToNoder) (n : Node)
    (k : String) (o : Scalar) (h1 : c.isTokenKey k = false)
    (h2 : c.InternalTypeKey ≠ k) (h3 : c.OffsetKey ≠ k) (h4 : c.LineKey ≠ k) :
    c.addProperty n k o = .ok (n.withProperties (setProp n.Properties k "0")) := by
  simp [BaseOriginalToNoder.addProperty, h1, h2, h3, h4]
  rfl

/-- A converter configuration with distinguished keys, as a per-language
driver would set up. -/
def sampleConfig : BaseOriginalToNoder :=
  { InternalTypeKey := "internalClass"
    OffsetKey := "offset"
    LineKey := "line"
    TokenKeys := [("token", true)]
    SyntheticTokens := [] }

/-- Witness for C9: under `sampleConfig`, the unknown key `weight` stores
the property value `0` both for a string entry and for an integer entry. -/
theorem c9_default_property_is_zero_witness :
    sampleConfig.addProperty NewNode "weight" (.sstr "hello") =
      .ok (NewNode.withProperties (setProp NewNode.Properties "weight" "0")) ∧
    sampleConfig.addProperty NewNode "weight" (.sint 42) =
      .ok (NewNode.withProperties (setProp NewNode.Properties "weight" "0")) :=
  ⟨c9_default_property_is_zero sampleConfig NewNode "weight" (.sstr "hello") rfl
      (by decide) (by decide) (by decide),
    c9_default_property_is_zero sampleConfig NewNode "weight" (.sint 42) rfl
      (by decide) (by decide) (by decide)⟩

/-- C10: `OriginalToNode` fails with `ErrEmptyAST` exactly on the empty map
and with `ErrUnexpectedObjectSize` exactly on a map with more than one key;
a single-key map is converted by handing its value to `toNode` as the root;
a second token key on a node is rejected with a two-token-keys error rather
than overwriting, and a second internal type on a node is rejected with a
two-internal-keys error rather than overwriting. -/
theorem c10_top_level_and_duplicate_checks (c : BaseOriginalToNoder) :
    (∀ src, c.OriginalToNode src = .error .emptyAST ↔ src = []) ∧
    (∀ src, (∃ a b, c.OriginalToNode src = .error (.unexpectedObjectSize a b)) ↔
      1 < src.length) ∧
    (∀ (k : String) (v : Value), c.OriginalToNode [(k, v)] = toNode c v) ∧
    (∀ (n : Node) (k : String) (o : Scalar), c.isTokenKey k = true →
      n.Token ≠ none → c.addProperty n k o = .error (.twoTokenKeys k)) ∧
    (∀ (n : Node) (k : String), n.InternalType ≠ "" →
      c.setInternalKey n k = .error (.twoInternalKeys n.InternalType k)) := by
  refine ⟨?_, ?_, ?_, ?_, ?_⟩
  · intro src
    constructor
    · intro h
      rcases src with _ | ⟨⟨k, v⟩, rest⟩
      · rfl
      · exfalso
        rcases rest with _ | ⟨p2, rest2⟩
        · simp [BaseOriginalToNoder.OriginalToNode, topLevelIsRootNode] at h
          exact (toNode_err c v _ h).1 rfl
        · simp [BaseOriginalToNoder.OriginalToNode, topLevelIsRootNode] at h
    · rintro rfl
      rfl
  · intro src
    constructor
    · rintro ⟨a, b, h⟩
      rcases src with _ | ⟨⟨k, v⟩, rest⟩
      · simp [BaseOriginalToNoder.OriginalToNode] at h
      · rcases rest with _ | ⟨p2, rest2⟩
        · simp [BaseOriginalToNoder.OriginalToNode, topLevelIsRootNode] at h
          exact absurd rfl ((toNode_err c v _ h).2 a b)
        · simp
    · intro hlen
      rcases src with _ | ⟨⟨k, v⟩, rest⟩
      · simp at hlen
      · rcases rest with _ | ⟨p2, rest2⟩
        · simp at hlen
        · refine ⟨1, rest2.length + 2, ?_⟩
          simp [BaseOriginalToNoder.OriginalToNode, topLevelIsRootNode]
  · intro k v
    rfl
  · intro n k o h1 h2
    simp [BaseOriginalToNoder.addProperty, h1, h2]
  · intro n k h
    simp [BaseOriginalToNoder.setInternalKey, h]

/-- A node that already carries a token. -/
def tokenedNode : Node := NewNode.withToken (some "tok0")

/-- A node that already carries an internal type. -/
def typedNode : Node := NewNode.withInternalType "T1"

/-- Witness for C10: each branch of the top-level and duplicate-key checks
evaluated at a concrete input. -/
theorem c10_top_level_and_duplicate_checks_witness :
    (sampleConfig.OriginalToNode [] = .error .emptyAST) ∧
    (∃ a b, sampleConfig.OriginalToNode
        [("a", .vscalar (.sint 1)), ("b", .vscalar (.sint 2))] =
      .error (.unexpectedObjectSize a b)) ∧
    (sampleConfig.OriginalToNode [("root", .vmap [])] = toNode sampleConfig (.vmap [])) ∧
    (sampleConfig.addProperty tokenedNode "token" (.sstr "t2") =
      .error (.twoTokenKeys "token")) ∧
    (sampleConfig.setInternalKey typedNode "T2" =
      .error (.twoInternalKeys "T1" "T2")) :=
  ⟨((c10_top_level_and_duplicate_checks sampleConfig).1 []).mpr rfl,
    ((c10_top_level_and_duplicate_checks sampleConfig).2.1
        [("a", .vscalar (.sint 1)), ("b", .vscalar (.sint 2))]).mpr (by decide),
    (c10_top_level_and_duplicate_checks sampleConfig).2.2.1 "root" (.vmap []),
    (c10_top_level_and_duplicate_checks sampleConfig).2.2.2.1 tokenedNode "token"
      (.sstr "t2") rfl (by decide),
    (c10_top_level_and_duplicate_checks sampleConfig).2.2.2.2 typedNode "T2"
      (by decide)⟩

end UAST

namespace UAST

/-- The order required of a sorted `Children` slice: offsets non-decreasing,
and a child with no offset never before a child that has one. -/
def childOrderOk (a b : Node) : Prop :=
  match a.offset, b.offset with
  | some x, some y => x ≤ y
  | none, some _ => False
  | _, _ => True

/-- A tree is position-sorted: the children of every node are pairwise in
`childOrderOk` order, recursively. -/
inductive Node.AllSorted : Node → Prop where
  | intro (n : Node) (hs : n.Children.Pairwise childOrderOk)
      (hc : ∀ m ∈ n.Children, Node.AllSorted m) : Node.AllSorted n

/-- The non-strict order used by the sort implies the claimed child order. -/
theorem byOffsetLe_childOrderOk {a b : Node} (h : byOffsetLe a b) :
    childOrderOk a b := by
  unfold byOffsetLe byOffsetLess at h
  unfold childOrderOk
  rcases ha : a.offset with _ | x <;> rcases hb : b.offset with _ | y <;>
    simp_all

/-- Re-labelling a node's properties does not disturb sortedness. -/
theorem allSorted_withProperties {n : Node} (p : List (String × String))
    (h : n.AllSorted) : (n.withProperties p).AllSorted := by
  cases h with
  | intro _ hs hc =>
    refine .intro _ ?_ ?_
    · rw [children_withProperties]
      exact hs
    · rw [children_withProperties]
      exact hc

mutual

/-- Every node produced by `toNode` has its children sorted, recursively. -/
theorem toNode_sorted (c : BaseOriginalToNoder) :
    ∀ (v : Value) (n : Node), toNode c v = .ok n → n.AllSorted
  | .vmap m, n => fun h => by
    simp only [toNode] at h
    rcases hfe : foldEntries c NewNode m with e2 | n0
    · rw [hfe] at h
      simp at h
    · rw [hfe] at h
      simp at h
      subst h
      have hmem : ∀ x ∈ n0.Children, x.AllSorted :=
        foldEntries_sorted c NewNode m n0 (by simp [NewNode, Node.Children]) hfe
      refine .intro _ ?_ ?_
      · rw [children_withChildren]
        exact (List.sorted_insertionSort byOffsetLe n0.Children).imp
          byOffsetLe_childOrderOk
      · rw [children_withChildren]
        intro x hx
        rw [sortChildren, List.mem_insertionSort] at hx
        exact hmem x hx
  | .varr xs, n => fun h => by simp [toNode] at h
  | .vscalar s, n => fun h => by simp [toNode] at h
termination_by v n => sizeOf v
decreasing_by all_goals (simp_wf <;> omega)

/-- The entry fold preserves the sortedness of all collected children. -/
theorem foldEntries_sorted (c : BaseOriginalToNoder) :
    ∀ (n0 : Node) (l : List (String × Value)) (n : Node),
      (∀ x ∈ n0.Children, x.AllSorted) → foldEntries c n0 l = .ok n →
      ∀ x ∈ n.Children, x.AllSorted
  | n0, [], n => fun hc h => by
    simp [foldEntries] at h
    subst h
    exact hc
  | n0, (k, v) :: rest, n => fun hc h => by
    cases v with
    | vmap m =>
      simp only [foldEntries] at h
      rcases hmc : mapToNode c k m with e2 | child
      · rw [hmc] at h
        simp at h
      · rw [hmc] at h
        simp at h
        refine foldEntries_sorted c (n0.withChildren (n0.Children ++ [child]))
          rest n ?_ h
        intro x hx
        rw [children_withChildren] at hx
        rcases List.mem_append.1 hx with hx1 | hx2
        · exact hc x hx1
        · rw [List.mem_singleton] at hx2
          subst hx2
          exact mapToNode_sorted c k m x hmc
    | varr s =>
      simp only [foldEntries] at h
      rcases hsn : sliceToNodes c k s with e2 | cs
      · rw [hsn] at h
        simp at h
      · rw [hsn] at h
        simp at h
        refine foldEntries_sorted c (n0.withChildren (n0.Children ++ cs))
          rest n ?_ h
        intro x hx
        rw [children_withChildren] at hx
        rcases List.mem_append.1 hx with hx1 | hx2
        · exact hc x hx1
        · exact sliceToNodes_sorted c k s cs hsn x hx2
    | vscalar o =>
      simp only [foldEntries] at h
      rcases hap : c.addProperty n0 k o with e2 | n2
      · rw [hap] at h
        simp at h
      · rw [hap] at h
        simp at h
        refine foldEntries_sorted c n2 rest n ?_ h
        rw [addProperty_children c n0 k o n2 hap]
        exact hc
termination_by n0 l n => sizeOf l
decreasing_by all_goals (simp_wf <;> omega)

/-- `mapToNode` produces a sorted node. -/
theorem mapToNode_sorted (c : BaseOriginalToNoder) :
    ∀ (k : String) (m : List (String × Value)) (n : Node),
      mapToNode c k m = .ok n → n.AllSorted
  | k, m, n => fun h => by
    simp only [mapToNode] at h
    rcases htn : toNode c (.vmap m) with e2 | n1
    · rw [htn] at h
      simp at h
    · rw [htn] at h
      simp at h
      subst h
      exact allSorted_withProperties _ (toNode_sorted c (.vmap m) n1 htn)
termination_by k m n => sizeOf m + 2
decreasing_by all_goals (simp_wf <;> omega)

/-- `sliceToNodes` produces sorted nodes. -/
theorem sliceToNodes_sorted (c : BaseOriginalToNoder) :
    ∀ (k : String) (l : List Value) (ns : List Node),
      sliceToNodes c k l = .ok ns → ∀ x ∈ ns, x.AllSorted
  | k, [], ns => fun h => by
    simp [sliceToNodes] at h
    subst h
    simp
  | k, v :: rest, ns => fun h => by
    simp only [sliceToNodes] at h
    rcases htn : toNode c v with e2 | n1
    · rw [htn] at h
      simp at h
    · rw [htn] at h
      simp at h
      rcases hsn : sliceToNodes c k rest with e2 | ns1
      · rw [hsn] at h
        simp at h
      · rw [hsn] at h
        simp at h
        subst h
        intro x hx
        rcases List.mem_cons.1 hx with rfl | hx2
        · exact allSorted_withProperties _ (toNode_sorted c v n1 htn)
        · exact sliceToNodes_sorted c k rest ns1 hsn x hx2
termination_by k l ns => sizeOf l
decreasing_by all_goals (simp_wf <;> omega)

end

end UAST

namespace UAST

/-- C8: for every successful `OriginalToNode` conversion, the `Children`
slice of every node in the returned tree is sorted by start offset in
non-decreasing order, with children that have no offset placed after all
children that have one. -/
theorem c8_children_sorted (c : BaseOriginalToNoder)
    (src : List (String × Value)) (n : Node)
    (h : c.OriginalToNode src = .ok n) : n.AllSorted := by
  rcases src with _ | ⟨⟨k, v⟩, rest⟩
  · simp [BaseOriginalToNoder.OriginalToNode] at h
  · rcases rest with _ | ⟨p2, rest2⟩
    · have h2 : toNode c v = .ok n := by
        simpa [BaseOriginalToNoder.OriginalToNode, topLevelIsRootNode] using h
      exact toNode_sorted c v n h2
    · simp [BaseOriginalToNoder.OriginalToNode, topLevelIsRootNode] at h

/-- A source AST whose two positioned children arrive out of offset order
and whose third child has no offset. -/
def sampleSrc : List (String × Value) :=
  [("root", .vmap [("a", .vmap [("offset", .vscalar (.sint 5))]),
    ("b", .vmap [("offset", .vscalar (.sint 2))])])]

/-- The tree `sampleSrc` converts to: children reordered by offset. -/
def sampleResult : Node :=
  .mk "" [] none none
    [.mk "" [("internalRole", "b")] none (some { Offset := some 2, Line := none }) [],
     .mk "" [("internalRole", "a")] none (some { Offset := some 5, Line := none }) []]

/-- Witness for C8: the conversion of `sampleSrc` succeeds with the
offset-sorted `sampleResult`, and the tree is sorted throughout. -/
theorem c8_children_sorted_witness :
    sampleConfig.OriginalToNode sampleSrc = .ok sampleResult ∧
    sampleResult.AllSorted := by
  have h : sampleConfig.OriginalToNode sampleSrc = .ok sampleResult := by
    simp [BaseOriginalToNoder.OriginalToNode, topLevelIsRootNode, toNode, foldEntries,
      mapToNode, sliceToNodes, BaseOriginalToNoder.addProperty,
      BaseOriginalToNoder.isTokenKey, BaseOriginalToNoder.setInternalKey,
      BaseOriginalToNoder.syntheticToken, lookupBool, lookupStr, toUint32, sprint,
      NewNode, sampleConfig, sampleSrc, sampleResult, sortChildren, byOffsetLe,
      byOffsetLess, setProp, InternalRoleKey, Node.withChildren, Node.withProperties,
      Node.withStartPosition, Node.withInternalType, Node.offset, Node.Children,
      Node.Properties, Node.StartPosition, Node.InternalType, Node.Token]
  exact ⟨h, c8_children_sorted sampleConfig sampleSrc sampleResult h⟩

end UAST
